import Mathlib

/-!
Verification of the snake-game simulation core (`src/main.js`).

The JavaScript source keeps four pieces of mutable game state:
`virtualField` (a 10×10 array of cell strings), `snakeCells` (a list of
`[row, col]` pairs, head first), `snakeDirection` (a pair of -1/0/1
deltas) and the DOM status text.  We embed these shallowly:

* `Cell` is the three-valued cell state (`'empty'`, `'apple'`, `'snake'`).
* `Grid` is a total function `(Int × Int) → Cell`; the game only ever
  reads or writes coordinates inside `[0, 10) × [0, 10)`, which the
  embedding enforces with the fallible accessors `getCell?` / `setCell?`
  (`none` models the out-of-bounds accesses that would throw or yield
  `undefined` in JavaScript).
* `getEmptyCellFuel` models the rejection-sampling loop of
  `getEmptyCell`: the `rnd` stream supplies the successive values of
  `Math.floor(Math.random() * FIELD_SIZE)` for both axes (hence always
  in range), and `fuel` bounds how many loop iterations we observe;
  `none` means the loop has not terminated within `fuel` draws.
* `updateGameState` is the step function, translated branch for branch
  from the source, including the exact order of the wall / self /
  win checks and of the grid writes.  The outcome enumeration reads the
  terminal ternary of the source: `'Congratulations!'` is `won`,
  `'Game over! Try again.'` is `lost`.
* `handleKeyboard` is the keydown handler (the `e.code` switch).
-/

inductive Cell where
  | empty : Cell
  | apple : Cell
  | snake : Cell
deriving DecidableEq, Repr

def FIELD_SIZE : Int := 10

def WIN_CONDITION : Nat := 5

abbrev Grid := (Int × Int) → Cell

/-- In-bounds predicate for the 10×10 field: both coordinates in `[0, 10)`. -/
def inB (p : Int × Int) : Prop :=
  0 ≤ p.1 ∧ p.1 < FIELD_SIZE ∧ 0 ≤ p.2 ∧ p.2 < FIELD_SIZE

instance (p : Int × Int) : Decidable (inB p) := by
  unfold inB; infer_instance

/-- Reading `virtualField[p.1][p.2]`; `none` models the out-of-bounds read
(which in JavaScript throws for a bad row index or yields `undefined`). -/
def getCell? (g : Grid) (p : Int × Int) : Option Cell :=
  if inB p then some (g p) else none

/-- Writing `virtualField[p.1][p.2] = v`; `none` models an out-of-bounds write. -/
def setCell? (g : Grid) (p : Int × Int) (v : Cell) : Option Grid :=
  if inB p then some (Function.update g p v) else none

/-- The finite set of in-bounds board positions. -/
def posFinset : Finset (Int × Int) :=
  Finset.Ico (0 : Int) FIELD_SIZE ×ˢ Finset.Ico (0 : Int) FIELD_SIZE

/-- Number of in-bounds cells currently holding the value `v`. -/
def countCell (g : Grid) (v : Cell) : Nat :=
  ∑ p ∈ posFinset, if g p = v then 1 else 0

/-- Number of in-bounds cells currently occupied (not `empty`). -/
def countNonEmpty (g : Grid) : Nat :=
  ∑ p ∈ posFinset, if g p = Cell.empty then 0 else 1

/-- The coordinate drawn from one call to
`[Math.floor(Math.random()*FIELD_SIZE), Math.floor(Math.random()*FIELD_SIZE)]`. -/
def toCoord (q : Fin 10 × Fin 10) : Int × Int :=
  ((q.1.val : Int), (q.2.val : Int))

/-- `getEmptyCell` of the source: rejection sampling over random in-range
coordinates until the drawn cell is `'empty'`.  `rnd` is the random draw
stream and `fuel` the number of loop iterations we observe; `none` means
the `while` loop is still running after `fuel` draws. -/
def getEmptyCellFuel (g : Grid) (rnd : Nat → Fin 10 × Fin 10) : Nat → Option (Int × Int)
  | 0 => none
  | n + 1 =>
    if g (toCoord (rnd n)) = Cell.empty then some (toCoord (rnd n))
    else getEmptyCellFuel g rnd n

/-- The snapshot of the three mutable top-level variables of the source
that the simulation reads and writes. -/
structure GameState where
  virtualField : Grid
  snakeCells : List (Int × Int)
  snakeDirection : Int × Int

/-- Outcome reported by a terminal evaluation of `updateGameState`:
`won` for the `'Congratulations!'` status, `lost` for
`'Game over! Try again.'`, `inProgress` when the function returns `true`. -/
inductive Outcome where
  | inProgress : Outcome
  | won : Outcome
  | lost : Outcome
deriving DecidableEq, Repr

/-- Result of one evaluation of `updateGameState`: the boolean the
function returns, the reported outcome, and the state afterwards. -/
structure StepResult where
  isGameOn : Bool
  outcome : Outcome
  state : GameState

/-- `[snakeCells[0][0] + snakeDirection[0], snakeCells[0][1] + snakeDirection[1]]`. -/
def stepTarget (head dir : Int × Int) : Int × Int :=
  (head.1 + dir.1, head.2 + dir.2)

/-- The wall test of the source:
`stepR === FIELD_SIZE || stepR < 0 || stepC === FIELD_SIZE || stepC < 0`. -/
def touchWall (p : Int × Int) : Prop :=
  p.1 = FIELD_SIZE ∨ p.1 < 0 ∨ p.2 = FIELD_SIZE ∨ p.2 < 0

instance (p : Int × Int) : Decidable (touchWall p) := by
  unfold touchWall; infer_instance

/-- The target cell of the next move, computed from the current state. -/
def nextTarget (s : GameState) : Int × Int :=
  stepTarget (s.snakeCells.headD (0, 0)) s.snakeDirection

/-- `updateGameState` of the source, translated branch for branch.
`rnd`/`fuel` feed the `getEmptyCell` call of the apple branch.  `none`
arises exactly when the source would fault or diverge: reading
`snakeCells[0]` of an empty list, an out-of-bounds grid access, or the
`getEmptyCell` loop not terminating within `fuel` draws. -/
def updateGameState (rnd : Nat → Fin 10 × Fin 10) (fuel : Nat) (s : GameState) :
    Option StepResult :=
  match s.snakeCells with
  | [] => none
  | head :: _ =>
    let step := stepTarget head s.snakeDirection
    if touchWall step then
      some ⟨false,
        if s.snakeCells.length - 1 = WIN_CONDITION then Outcome.won else Outcome.lost, s⟩
    else
      match getCell? s.virtualField step with
      | none => none
      | some c0 =>
        if c0 = Cell.snake ∨ s.snakeCells.length - 1 = WIN_CONDITION then
          some ⟨false,
            if s.snakeCells.length - 1 = WIN_CONDITION then Outcome.won else Outcome.lost, s⟩
        else
          if c0 = Cell.apple then
            match getEmptyCellFuel s.virtualField rnd fuel with
            | none => none
            | some na =>
              match setCell? s.virtualField na Cell.apple with
              | none => none
              | some g1 =>
                match setCell? g1 step Cell.snake with
                | none => none
                | some g2 =>
                  some ⟨true, Outcome.inProgress,
                    ⟨g2, step :: s.snakeCells, s.snakeDirection⟩⟩
          else
            match setCell? s.virtualField ((step :: s.snakeCells).getLastD (0, 0)) Cell.empty with
            | none => none
            | some g1 =>
              match setCell? g1 step Cell.snake with
              | none => none
              | some g2 =>
                some ⟨true, Outcome.inProgress,
                  ⟨g2, (step :: s.snakeCells).dropLast, s.snakeDirection⟩⟩

/-- The four arrow keys consumed by `handleKeyboard`. -/
inductive Key where
  | up : Key
  | right : Key
  | down : Key
  | left : Key
deriving DecidableEq, Repr

/-- The heading each arrow key commits (`ArrowUp ↦ [-1,0]`, etc.). -/
def keyDir : Key → Int × Int
  | Key.up => (-1, 0)
  | Key.right => (0, 1)
  | Key.down => (1, 0)
  | Key.left => (0, -1)

/-- `handleKeyboard` of the source: each arrow reverses `snakeCells`
exactly when the currently committed heading is its exact opposite, then
commits the new heading. -/
def handleKeyboard (k : Key) (s : GameState) : GameState :=
  match k with
  | Key.up =>
    ⟨s.virtualField,
      if s.snakeDirection.1 = 1 then s.snakeCells.reverse else s.snakeCells, (-1, 0)⟩
  | Key.right =>
    ⟨s.virtualField,
      if s.snakeDirection.2 = -1 then s.snakeCells.reverse else s.snakeCells, (0, 1)⟩
  | Key.down =>
    ⟨s.virtualField,
      if s.snakeDirection.1 = -1 then s.snakeCells.reverse else s.snakeCells, (1, 0)⟩
  | Key.left =>
    ⟨s.virtualField,
      if s.snakeDirection.2 = 1 then s.snakeCells.reverse else s.snakeCells, (0, -1)⟩

/-- The all-`'empty'` grid built by `initNewField`. -/
def emptyGrid : Grid := fun _ => Cell.empty

/-- The state after `initNewField(); putApple(); putSnake();` when
`putApple` placed the apple at `a` and `putSnake` placed the snake at
`sp`.  `snakeDirection` holds its initial value `[1, 0]`. -/
def initialState (a sp : Int × Int) : GameState :=
  ⟨Function.update (Function.update emptyGrid a Cell.apple) sp Cell.snake, [sp], (1, 0)⟩

/-- The four headings `handleKeyboard` can commit (also the initial one). -/
def validDirs : List (Int × Int) := [(1, 0), (-1, 0), (0, 1), (0, -1)]

/-- States reachable from a fresh game start: the initial placement of
apple and snake, followed by any interleaving of continuing simulation
steps and keyboard events. -/
inductive Reachable : GameState → Prop where
  | init (rndA rndS : Nat → Fin 10 × Fin 10) (fA fS : Nat) (a sp : Int × Int)
      (ha : getEmptyCellFuel emptyGrid rndA fA = some a)
      (hs : getEmptyCellFuel (Function.update emptyGrid a Cell.apple) rndS fS = some sp) :
      Reachable (initialState a sp)
  | step (s : GameState) (rnd : Nat → Fin 10 × Fin 10) (fuel : Nat) (res : StepResult)
      (hr : Reachable s) (hs : updateGameState rnd fuel s = some res)
      (hon : res.isGameOn = true) : Reachable res.state
  | key (s : GameState) (k : Key) (hr : Reachable s) : Reachable (handleKeyboard k s)

/-- The inductive state invariant: the grid marks exactly the snake
segments as `'snake'`, the segment list has no duplicates and stays in
bounds and nonempty, exactly one apple is on the board, and the heading
is one of the four arrow headings. -/
structure GameInv (s : GameState) : Prop where
  mem : ∀ p, inB p → (s.virtualField p = Cell.snake ↔ p ∈ s.snakeCells)
  nodup : s.snakeCells.Nodup
  bounds : ∀ p ∈ s.snakeCells, inB p
  apple1 : countCell s.virtualField Cell.apple = 1
  ne : s.snakeCells ≠ []
  dir : s.snakeDirection ∈ validDirs

/-- Concrete grid builder for witness states: `'snake'` on `snakes`,
`'apple'` on `apples`, `'empty'` elsewhere. -/
def gridOf (apples snakes : List (Int × Int)) : Grid :=
  fun p => if p ∈ snakes then Cell.snake else if p ∈ apples then Cell.apple else Cell.empty

/-- A fixed random draw stream for concrete runs: always `(0, 0)`. -/
def rnd0 : Nat → Fin 10 × Fin 10 := fun _ => (0, 0)

/-- Six-segment snake whose head sits at the rightmost column and whose
heading points at the wall; the win target is reached at the same time. -/
def stateC2 : GameState :=
  ⟨gridOf [(0, 0)] [(5, 9), (5, 8), (5, 7), (5, 6), (5, 5), (5, 4)],
   [(5, 9), (5, 8), (5, 7), (5, 6), (5, 5), (5, 4)], (0, 1)⟩

/-- Single-segment snake at the rightmost column heading into the wall. -/
def stateC2w : GameState := ⟨gridOf [(0, 0)] [(5, 9)], [(5, 9)], (0, 1)⟩

/-- Six-segment snake about to move onto its own tail cell while the win
target is reached at the same time. -/
def stateC3 : GameState :=
  ⟨gridOf [(0, 0)] [(5, 5), (5, 4), (4, 4), (4, 5), (4, 6), (5, 6)],
   [(5, 5), (5, 4), (4, 4), (4, 5), (4, 6), (5, 6)], (0, 1)⟩

/-- Two-segment snake about to move onto its immediately-vacating tail cell. -/
def stateC3w : GameState := ⟨gridOf [(0, 0)] [(5, 5), (5, 6)], [(5, 5), (5, 6)], (0, 1)⟩

/-- Six-segment snake (five apples eaten) with a free cell ahead. -/
def stateC4w : GameState :=
  ⟨gridOf [(0, 0)] [(2, 0), (2, 1), (2, 2), (2, 3), (2, 4), (2, 5)],
   [(2, 0), (2, 1), (2, 2), (2, 3), (2, 4), (2, 5)], (1, 0)⟩

/-- Single-segment snake with the apple directly ahead. -/
def stateC5w : GameState := ⟨gridOf [(5, 6)] [(5, 5)], [(5, 5)], (0, 1)⟩

/-- The step result of running `stateC5w` with draw stream `rnd0`. -/
def resC5w : StepResult :=
  ⟨true, Outcome.inProgress,
   ⟨Function.update (Function.update (gridOf [(5, 6)] [(5, 5)]) (0, 0) Cell.apple)
      (5, 6) Cell.snake, [(5, 6), (5, 5)], (0, 1)⟩⟩

/-- Two-segment snake with an empty cell ahead. -/
def stateC6w : GameState := ⟨gridOf [(0, 0)] [(5, 5), (5, 4)], [(5, 5), (5, 4)], (0, 1)⟩

/-- The step result of running `stateC6w` with draw stream `rnd0`. -/
def resC6w : StepResult :=
  ⟨true, Outcome.inProgress,
   ⟨Function.update (Function.update (gridOf [(0, 0)] [(5, 5), (5, 4)]) (5, 4) Cell.empty)
      (5, 6) Cell.snake, [(5, 6), (5, 5)], (0, 1)⟩⟩

/-- A grid whose only empty cell is `(0, 0)`. -/
def gridC7 : Grid := fun p => if p = (0, 0) then Cell.empty else Cell.snake

/-- A draw stream that always proposes `(1, 1)`. -/
def rndC7 : Nat → Fin 10 × Fin 10 := fun _ => (1, 1)

/-- Five-segment snake bent in a hook, heading right; its tail neighbour
lies to the left of the tail. -/
def stateC8 : GameState :=
  ⟨gridOf [(0, 0)] [(2, 2), (2, 1), (1, 1), (1, 2), (1, 3)],
   [(2, 2), (2, 1), (1, 1), (1, 2), (1, 3)], (0, 1)⟩

/-- Straight two-segment snake heading right. -/
def stateC8w : GameState := ⟨gridOf [(0, 0)] [(5, 5), (5, 4)], [(5, 5), (5, 4)], (0, 1)⟩

/-- Two-segment snake heading down, so that `ArrowUp` is the exact
opposite of the committed heading. -/
def stateC9 : GameState := ⟨gridOf [(0, 0)] [(5, 5), (5, 6)], [(5, 5), (5, 6)], (1, 0)⟩

/-- Single-segment snake with an empty cell ahead. -/
def stateC10w : GameState := ⟨gridOf [(0, 0)] [(5, 5)], [(5, 5)], (0, 1)⟩

/-! ### Basic facts about the grid accessors and counters -/

theorem mem_posFinset {p : Int × Int} : p ∈ posFinset ↔ inB p := by
  simp [posFinset, inB, Finset.mem_product, Finset.mem_Ico, and_assoc]

theorem getCell?_eq_some {g : Grid} {p : Int × Int} {c : Cell}
    (h : getCell? g p = some c) : inB p ∧ g p = c := by
  unfold getCell? at h
  split at h
  · exact ⟨by assumption, by injection h⟩
  · cases h

theorem getCell?_of_inB {g : Grid} {p : Int × Int} (h : inB p) :
    getCell? g p = some (g p) := by
  simp [getCell?, h]

theorem setCell?_eq_some {g g2 : Grid} {p : Int × Int} {v : Cell}
    (h : setCell? g p v = some g2) : inB p ∧ g2 = Function.update g p v := by
  unfold setCell? at h
  split at h
  · refine ⟨by assumption, ?_⟩
    injection h with h2
    exact h2.symm
  · cases h

theorem setCell?_of_inB {g : Grid} {p : Int × Int} {v : Cell} (h : inB p) :
    setCell? g p v = some (Function.update g p v) := by
  simp [setCell?, h]

theorem countCell_update {g : Grid} {q : Int × Int} (v w : Cell) (hq : inB q) :
    countCell (Function.update g q v) w + (if g q = w then 1 else 0)
      = countCell g w + (if v = w then 1 else 0) := by
  have hmem : q ∈ posFinset := mem_posFinset.mpr hq
  unfold countCell
  rw [Finset.sum_eq_sum_diff_singleton_add hmem, Finset.sum_eq_sum_diff_singleton_add hmem]
  have hoff : ∀ p ∈ posFinset \ {q},
      (if Function.update g q v p = w then 1 else 0) = (if g p = w then 1 else 0) := by
    intro p hp
    rcases Finset.mem_sdiff.mp hp with ⟨-, hpq⟩
    rw [Function.update_noteq (by simpa using hpq)]
  rw [Finset.sum_congr rfl hoff, Function.update_same]
  omega

theorem countNonEmpty_update {g : Grid} {q : Int × Int} (v : Cell) (hq : inB q) :
    countNonEmpty (Function.update g q v) + (if g q = Cell.empty then 0 else 1)
      = countNonEmpty g + (if v = Cell.empty then 0 else 1) := by
  have hmem : q ∈ posFinset := mem_posFinset.mpr hq
  unfold countNonEmpty
  rw [Finset.sum_eq_sum_diff_singleton_add hmem, Finset.sum_eq_sum_diff_singleton_add hmem]
  have hoff : ∀ p ∈ posFinset \ {q},
      (if Function.update g q v p = Cell.empty then 0 else 1)
        = (if g p = Cell.empty then 0 else 1) := by
    intro p hp
    rcases Finset.mem_sdiff.mp hp with ⟨-, hpq⟩
    rw [Function.update_noteq (by simpa using hpq)]
  rw [Finset.sum_congr rfl hoff, Function.update_same]
  omega

theorem countCell_snake_eq_length {g : Grid} {cells : List (Int × Int)}
    (hmem : ∀ p, inB p → (g p = Cell.snake ↔ p ∈ cells))
    (hnd : cells.Nodup) (hb : ∀ p ∈ cells, inB p) :
    countCell g Cell.snake = cells.length := by
  have h1 : countCell g Cell.snake
      = (posFinset.filter (fun p => g p = Cell.snake)).card := by
    rw [Finset.card_filter]; rfl
  have h2 : posFinset.filter (fun p => g p = Cell.snake) = cells.toFinset := by
    ext p
    rw [Finset.mem_filter, List.mem_toFinset, mem_posFinset]
    constructor
    · rintro ⟨hp, hs⟩; exact (hmem p hp).mp hs
    · intro hp; exact ⟨hb p hp, (hmem p (hb p hp)).mpr hp⟩
  rw [h1, h2, List.toFinset_card_of_nodup hnd]

/-! ### Facts about the rejection-sampling loop -/

theorem inB_toCoord (q : Fin 10 × Fin 10) : inB (toCoord q) := by
  simp only [inB, toCoord, FIELD_SIZE]
  refine ⟨Int.ofNat_nonneg _, ?_, Int.ofNat_nonneg _, ?_⟩
  · exact_mod_cast q.1.isLt
  · exact_mod_cast q.2.isLt

theorem getEmptyCellFuel_some {g : Grid} {rnd : Nat → Fin 10 × Fin 10} {fuel : Nat}
    {p : Int × Int} (h : getEmptyCellFuel g rnd fuel = some p) :
    g p = Cell.empty ∧ inB p := by
  induction fuel with
  | zero => cases h
  | succ n ih =>
    unfold getEmptyCellFuel at h
    split at h
    · injection h with h2
      subst h2
      exact ⟨by assumption, inB_toCoord _⟩
    · exact ih h

theorem getEmptyCellFuel_isSome {g : Grid} {rnd : Nat → Fin 10 × Fin 10} {fuel : Nat}
    (h : ∃ i, i < fuel ∧ g (toCoord (rnd i)) = Cell.empty) :
    (getEmptyCellFuel g rnd fuel).isSome = true := by
  induction fuel with
  | zero => rcases h with ⟨i, hi, -⟩; omega
  | succ n ih =>
    unfold getEmptyCellFuel
    split
    · rfl
    · rcases h with ⟨i, hi, he⟩
      refine ih ⟨i, ?_, he⟩
      rcases Nat.lt_succ_iff_lt_or_eq.mp hi with h1 | h1
      · exact h1
      · subst h1; exact absurd he (by assumption)

theorem getEmptyCellFuel_none_of_full {g : Grid}
    (hfull : ∀ p, inB p → g p ≠ Cell.empty)
    (rnd : Nat → Fin 10 × Fin 10) (fuel : Nat) :
    getEmptyCellFuel g rnd fuel = none := by
  induction fuel with
  | zero => rfl
  | succ n ih =>
    unfold getEmptyCellFuel
    rw [if_neg (hfull _ (inB_toCoord _))]
    exact ih

/-! ### Wall test versus bounds -/

theorem touchWall_false_of_inB {p : Int × Int} (h : inB p) : ¬ touchWall p := by
  rcases h with ⟨h1, h2, h3, h4⟩
  rintro (h | h | h | h) <;> omega

theorem inB_of_not_touchWall {head dir : Int × Int} (hh : inB head)
    (hd : dir ∈ validDirs) (hw : ¬ touchWall (stepTarget head dir)) :
    inB (stepTarget head dir) := by
  rcases hh with ⟨h1, h2, h3, h4⟩
  rw [touchWall] at hw
  push_neg at hw
  rcases hw with ⟨w1, w2, w3, w4⟩
  simp only [validDirs, List.mem_cons, List.not_mem_nil, or_false] at hd
  rcases hd with h | h | h | h <;> subst h <;>
    simp only [stepTarget, inB, FIELD_SIZE] at * <;> omega

theorem touchWall_of_not_inB {head dir : Int × Int} (hh : inB head)
    (hd : dir ∈ validDirs) (hw : ¬ inB (stepTarget head dir)) :
    touchWall (stepTarget head dir) := by
  by_contra h
  exact hw (inB_of_not_touchWall hh hd h)

/-! ### Inversion of one simulation step

Any successful evaluation of `updateGameState` took exactly one of three
paths: the terminal path (wall, self-collision or win target reached,
state returned untouched, outcome decided by the win ternary), the
apple path (head pushed, new apple placed on a sampled cell, no tail
pop), or the crawl path (head pushed, tail popped and cleared). -/

theorem updateGameState_inversion {rnd : Nat → Fin 10 × Fin 10} {fuel : Nat}
    {s : GameState} {res : StepResult}
    (h : updateGameState rnd fuel s = some res) :
    ∃ hd t, s.snakeCells = hd :: t ∧
      ((res = ⟨false,
          if s.snakeCells.length - 1 = WIN_CONDITION then Outcome.won else Outcome.lost, s⟩ ∧
        (touchWall (stepTarget hd s.snakeDirection) ∨
         (inB (stepTarget hd s.snakeDirection) ∧
          (s.virtualField (stepTarget hd s.snakeDirection) = Cell.snake ∨
           s.snakeCells.length - 1 = WIN_CONDITION)))) ∨
       (¬ touchWall (stepTarget hd s.snakeDirection) ∧
        inB (stepTarget hd s.snakeDirection) ∧
        s.virtualField (stepTarget hd s.snakeDirection) ≠ Cell.snake ∧
        s.snakeCells.length - 1 ≠ WIN_CONDITION ∧
        ((s.virtualField (stepTarget hd s.snakeDirection) = Cell.apple ∧
          ∃ na, getEmptyCellFuel s.virtualField rnd fuel = some na ∧ inB na ∧
            res = ⟨true, Outcome.inProgress,
              ⟨Function.update (Function.update s.virtualField na Cell.apple)
                 (stepTarget hd s.snakeDirection) Cell.snake,
               stepTarget hd s.snakeDirection :: s.snakeCells, s.snakeDirection⟩⟩) ∨
         (s.virtualField (stepTarget hd s.snakeDirection) = Cell.empty ∧
          inB ((stepTarget hd s.snakeDirection :: s.snakeCells).getLastD (0, 0)) ∧
          res = ⟨true, Outcome.inProgress,
            ⟨Function.update
               (Function.update s.virtualField
                 ((stepTarget hd s.snakeDirection :: s.snakeCells).getLastD (0, 0)) Cell.empty)
               (stepTarget hd s.snakeDirection) Cell.snake,
             (stepTarget hd s.snakeDirection :: s.snakeCells).dropLast,
             s.snakeDirection⟩⟩)))) := by
  cases hsn : s.snakeCells with
  | nil =>
    unfold updateGameState at h
    rw [hsn] at h
    cases h
  | cons hd t =>
    unfold updateGameState at h
    rw [hsn] at h
    simp only at h
    refine ⟨hd, t, rfl, ?_⟩
    split at h
    · -- wall hit
      injection h with h2
      exact Or.inl ⟨h2.symm, Or.inl (by assumption)⟩
    · rcases hgc : getCell? s.virtualField (stepTarget hd s.snakeDirection) with - | c0
      · rw [hgc] at h; cases h
      · rw [hgc] at h
        simp only at h
        rcases getCell?_eq_some hgc with ⟨hstep, hcell⟩
        split at h
        · -- self collision or win target reached
          rename_i hterm
          injection h with h2
          refine Or.inl ⟨h2.symm, Or.inr ⟨hstep, ?_⟩⟩
          rcases hterm with h3 | h3
          · exact Or.inl (hcell.trans h3)
          · exact Or.inr h3
        · rename_i hterm
          push_neg at hterm
          obtain ⟨hnosnake, hnowin⟩ := hterm
          have hwall : ¬ touchWall (stepTarget hd s.snakeDirection) := by assumption
          have hns : s.virtualField (stepTarget hd s.snakeDirection) ≠ Cell.snake := by
            rw [hcell]; exact hnosnake
          split at h
          · -- apple branch
            rename_i happle
            rcases hge : getEmptyCellFuel s.virtualField rnd fuel with - | na
            · rw [hge] at h; cases h
            · rw [hge] at h
              simp only at h
              rcases hset1 : setCell? s.virtualField na Cell.apple with - | g1
              · rw [hset1] at h; cases h
              · rw [hset1] at h
                simp only at h
                obtain ⟨hna, hg1⟩ := setCell?_eq_some hset1
                rcases hset2 : setCell? g1 (stepTarget hd s.snakeDirection) Cell.snake with - | g2
                · rw [hset2] at h; cases h
                · rw [hset2] at h
                  simp only at h
                  obtain ⟨-, hg2⟩ := setCell?_eq_some hset2
                  injection h with h2
                  subst hg1
                  subst hg2
                  exact Or.inr ⟨hwall, hstep, hns, hnowin,
                    Or.inl ⟨hcell.trans happle, na, rfl, hna, h2.symm⟩⟩
          · -- crawl branch: the cell ahead is neither snake nor apple, hence empty
            rename_i hnapple
            have hempty : c0 = Cell.empty := by
              cases c0
              · rfl
              · exact absurd rfl hnapple
              · exact absurd rfl hnosnake
            rcases hset1 : setCell? s.virtualField
                ((stepTarget hd s.snakeDirection :: hd :: t).getLastD (0, 0)) Cell.empty with - | g1
            · rw [hset1] at h; cases h
            · rw [hset1] at h
              simp only at h
              obtain ⟨htail, hg1⟩ := setCell?_eq_some hset1
              rcases hset2 : setCell? g1 (stepTarget hd s.snakeDirection) Cell.snake with - | g2
              · rw [hset2] at h; cases h
              · rw [hset2] at h
                simp only at h
                obtain ⟨-, hg2⟩ := setCell?_eq_some hset2
                injection h with h2
                subst hg1
                subst hg2
                exact Or.inr ⟨hwall, hstep, hns, hnowin,
                  Or.inr ⟨hcell.trans hempty, htail, h2.symm⟩⟩

/-! ### Preservation of the state invariant -/

theorem gameInv_terminal_state {s : GameState} (hi : GameInv s) (b : Bool) (o : Outcome) :
    GameInv (StepResult.state ⟨b, o, s⟩) := hi

theorem step_notMem_of_not_snake {s : GameState} (hi : GameInv s) {p : Int × Int}
    (hp : inB p) (hne : s.virtualField p ≠ Cell.snake) : p ∉ s.snakeCells :=
  fun hmem => hne ((hi.mem p hp).mpr hmem)

theorem gameInv_step {rnd : Nat → Fin 10 × Fin 10} {fuel : Nat} {s : GameState}
    {res : StepResult} (hi : GameInv s) (h : updateGameState rnd fuel s = some res) :
    GameInv res.state := by
  rcases updateGameState_inversion h with ⟨hd, t, hsn, hterm | hcont⟩
  · rw [hterm.1]
    exact hi
  · rcases hcont with ⟨hwall, hstep, hns, hnowin, happle | hcrawl⟩
    · -- apple path
      rcases happle with ⟨hap, na, hge, hna, hres⟩
      rcases getEmptyCellFuel_some hge with ⟨hnaE, -⟩
      have hstepmem : stepTarget hd s.snakeDirection ∉ s.snakeCells :=
        step_notMem_of_not_snake hi hstep hns
      have hnane : na ≠ stepTarget hd s.snakeDirection := by
        intro hc; rw [hc, hap] at hnaE; cases hnaE
      have hnamem : na ∉ s.snakeCells := by
        intro hmem
        rw [(hi.mem na hna).mpr hmem] at hnaE
        cases hnaE
      rw [hres]
      dsimp only
      refine ⟨?_, ?_, ?_, ?_, by simp, hi.dir⟩
      · intro p hp
        dsimp only
        by_cases hpe : p = stepTarget hd s.snakeDirection
        · subst hpe
          rw [Function.update_same]
          simp
        · rw [Function.update_noteq hpe]
          by_cases hpn : p = na
          · subst hpn
            rw [Function.update_same]
            constructor
            · intro hc; cases hc
            · intro hmem
              rcases List.mem_cons.mp hmem with hc | hc
              · exact absurd hc hnane
              · exact absurd hc hnamem
          · rw [Function.update_noteq hpn]
            rw [hi.mem p hp]
            simp [List.mem_cons, hpe]
      · exact List.nodup_cons.mpr ⟨hstepmem, hi.nodup⟩
      · intro p hp
        rcases List.mem_cons.mp hp with hc | hc
        · exact hc ▸ hstep
        · exact hi.bounds p hc
      · dsimp only
        have e1 := countCell_update (g := s.virtualField) (q := na) Cell.apple Cell.apple hna
        have e2 := countCell_update (g := Function.update s.virtualField na Cell.apple)
          (q := stepTarget hd s.snakeDirection) Cell.snake Cell.apple hstep
        rw [hnaE] at e1
        rw [Function.update_noteq (fun hc => hnane hc.symm), hap] at e2
        have h1 := hi.apple1
        simp only [reduceCtorEq, eq_self_iff_true, if_true, if_false] at e1 e2
        omega
    · -- crawl path
      rcases hcrawl with ⟨hem, htailB, hres⟩
      have hstepmem : stepTarget hd s.snakeDirection ∉ s.snakeCells := by
        refine step_notMem_of_not_snake hi hstep ?_
        rw [hem]; intro hc; cases hc
      rcases List.eq_nil_or_concat s.snakeCells with hnil | ⟨L, tl, hLc⟩
      · exact absurd hnil hi.ne
      · have hL : s.snakeCells = L ++ [tl] := by rw [hLc, List.concat_eq_append]
        have hlast : (stepTarget hd s.snakeDirection :: s.snakeCells).getLastD (0, 0) = tl := by
          rw [hL, ← List.cons_append, List.getLastD_concat]
        have hdrop : (stepTarget hd s.snakeDirection :: s.snakeCells).dropLast
            = stepTarget hd s.snakeDirection :: L := by
          rw [hL, ← List.cons_append, List.dropLast_concat]
        have htlmem : tl ∈ s.snakeCells := by rw [hL]; simp
        have htlB : inB tl := hi.bounds tl htlmem
        have htlsnake : s.virtualField tl = Cell.snake := (hi.mem tl htlB).mpr htlmem
        have htlne : tl ≠ stepTarget hd s.snakeDirection := by
          intro hc; rw [hc, hem] at htlsnake; cases htlsnake
        have hnodL : L.Nodup ∧ tl ∉ L := by
          have hnd := hi.nodup
          rw [hL] at hnd
          rcases List.nodup_append.mp hnd with ⟨h1, -, h3⟩
          exact ⟨h1, fun hmem => h3 hmem (by simp)⟩
        rw [hres, hlast, hdrop]
        dsimp only
        refine ⟨?_, ?_, ?_, ?_, by simp, hi.dir⟩
        · intro p hp
          dsimp only
          by_cases hpe : p = stepTarget hd s.snakeDirection
          · subst hpe
            rw [Function.update_same]
            simp
          · rw [Function.update_noteq hpe]
            by_cases hpt : p = tl
            · subst hpt
              rw [Function.update_same]
              constructor
              · intro hc; cases hc
              · intro hmem
                rcases List.mem_cons.mp hmem with hc | hc
                · exact absurd hc htlne
                · exact absurd hc hnodL.2
            · rw [Function.update_noteq hpt]
              rw [hi.mem p hp, hL]
              simp only [List.mem_append, List.mem_singleton, List.mem_cons,
                List.not_mem_nil, or_false]
              constructor
              · rintro (hc | hc)
                · exact Or.inr hc
                · exact absurd hc hpt
              · rintro (hc | hc)
                · exact absurd hc hpe
                · exact Or.inl hc
        · refine List.nodup_cons.mpr ⟨?_, hnodL.1⟩
          intro hmem
          exact hstepmem (by rw [hL]; exact List.mem_append_left _ hmem)
        · intro p hp
          rcases List.mem_cons.mp hp with hc | hc
          · exact hc ▸ hstep
          · exact hi.bounds p (by rw [hL]; exact List.mem_append_left _ hc)
        · dsimp only
          have e1 := countCell_update (g := s.virtualField) (q := tl) Cell.empty Cell.apple htlB
          have e2 := countCell_update (g := Function.update s.virtualField tl Cell.empty)
            (q := stepTarget hd s.snakeDirection) Cell.snake Cell.apple hstep
          rw [htlsnake] at e1
          rw [Function.update_noteq (fun hc => htlne hc.symm), hem] at e2
          have h1 := hi.apple1
          simp only [reduceCtorEq, eq_self_iff_true, if_true, if_false] at e1 e2
          omega

theorem gameInv_keep_cells {s : GameState} (hi : GameInv s)
    {cells2 : List (Int × Int)} {d : Int × Int}
    (hc : cells2 = s.snakeCells ∨ cells2 = s.snakeCells.reverse) (hd : d ∈ validDirs) :
    GameInv ⟨s.virtualField, cells2, d⟩ := by
  rcases hc with hc | hc <;> subst hc
  · exact ⟨hi.mem, hi.nodup, hi.bounds, hi.apple1, hi.ne, hd⟩
  · refine ⟨?_, List.nodup_reverse.mpr hi.nodup, ?_, hi.apple1, ?_, hd⟩
    · intro p hp
      dsimp only
      rw [List.mem_reverse]
      exact hi.mem p hp
    · intro p hp
      exact hi.bounds p (List.mem_reverse.mp hp)
    · intro hnil
      exact hi.ne (by simpa using congrArg List.reverse hnil)

theorem gameInv_key {s : GameState} (hi : GameInv s) (k : Key) :
    GameInv (handleKeyboard k s) := by
  cases k <;> unfold handleKeyboard <;>
    refine gameInv_keep_cells hi ?_ (by simp [validDirs]) <;>
    split <;> simp

theorem gameInv_initial {rndA rndS : Nat → Fin 10 × Fin 10} {fA fS : Nat} {a sp : Int × Int}
    (ha : getEmptyCellFuel emptyGrid rndA fA = some a)
    (hs : getEmptyCellFuel (Function.update emptyGrid a Cell.apple) rndS fS = some sp) :
    GameInv (initialState a sp) := by
  rcases getEmptyCellFuel_some ha with ⟨-, haB⟩
  rcases getEmptyCellFuel_some hs with ⟨hspE, hspB⟩
  have hne : sp ≠ a := by
    intro hc
    rw [hc, Function.update_same] at hspE
    cases hspE
  unfold initialState
  refine ⟨?_, by simp, ?_, ?_, by simp, by simp [validDirs]⟩
  · intro p hp
    dsimp only
    by_cases hpe : p = sp
    · subst hpe
      rw [Function.update_same]
      simp
    · rw [Function.update_noteq hpe]
      constructor
      · intro hc
        by_cases hpa : p = a
        · rw [hpa, Function.update_same] at hc; cases hc
        · rw [Function.update_noteq hpa, emptyGrid] at hc; cases hc
      · intro hmem
        simp only [List.mem_singleton] at hmem
        exact absurd hmem hpe
  · intro p hp
    simp only [List.mem_singleton] at hp
    exact hp ▸ hspB
  · dsimp only
    have h0 : countCell emptyGrid Cell.apple = 0 := by
      refine Finset.sum_eq_zero ?_
      intro p hp
      simp [emptyGrid]
    have e1 := countCell_update (g := emptyGrid) (q := a) Cell.apple Cell.apple haB
    have e2 := countCell_update (g := Function.update emptyGrid a Cell.apple)
      (q := sp) Cell.snake Cell.apple hspB
    rw [hspE] at e2
    simp only [emptyGrid, reduceCtorEq, eq_self_iff_true, if_true, if_false] at e1 e2
    omega

theorem reachable_gameInv {s : GameState} (h : Reachable s) : GameInv s := by
  induction h with
  | init rndA rndS fA fS a sp ha hs => exact gameInv_initial ha hs
  | step s rnd fuel res hr hs hon ih => exact gameInv_step ih hs
  | key s k hr ih => exact gameInv_key ih k

/-! ### Claim theorems -/

theorem getLastD_cons_mem (a d : Int × Int) (l : List (Int × Int)) :
    (a :: l).getLastD d ∈ a :: l := by
  rw [List.getLastD_eq_getLast?]
  cases h : (a :: l).getLast? with
  | none => simp at h
  | some b =>
    obtain ⟨hne, hb⟩ := List.mem_getLast?_eq_getLast (l := a :: l) (x := b) (Option.mem_def.mpr h)
    simp only [Option.getD_some]
    rw [hb]
    exact List.getLast_mem hne

/-- C1: in every state reachable from game start while the game is still
running, the length of `snakeCells` equals the number of grid cells
holding `'snake'`, and exactly one grid cell holds `'apple'`.  (The
invariant is preserved by every continuing step — both the food-eating
and the crawling branch — and by the segment-order reversal performed by
the keyboard handler, which are exactly the transitions of `Reachable`.) -/
theorem C1_snake_count_and_single_apple (s : GameState) (h : Reachable s) :
    s.snakeCells.length = countCell s.virtualField Cell.snake ∧
    countCell s.virtualField Cell.apple = 1 := by
  have hi := reachable_gameInv h
  exact ⟨(countCell_snake_eq_length hi.mem hi.nodup hi.bounds).symm, hi.apple1⟩

theorem C1_witness :
    Reachable (initialState (0, 0) (5, 5)) ∧
    ((initialState (0, 0) (5, 5)).snakeCells.length
        = countCell (initialState (0, 0) (5, 5)).virtualField Cell.snake ∧
     countCell (initialState (0, 0) (5, 5)).virtualField Cell.apple = 1) := by
  have hr : Reachable (initialState (0, 0) (5, 5)) :=
    Reachable.init rnd0 (fun _ => (5, 5)) 1 1 (0, 0) (5, 5) (by decide) (by decide)
  exact ⟨hr, C1_snake_count_and_single_apple _ hr⟩

/-- C2 (counterexample): in `stateC2` the snake head sits at the
rightmost column with the heading pointing at the wall, so the next cell
is out of bounds; but because the pre-move snake length minus one equals
the win target, the terminal ternary of the source reports the win
status, not the loss the claim demands. -/
theorem C2_counterexample :
    ¬ inB (stepTarget (5, 9) (0, 1)) ∧ stateC2.snakeCells.length - 1 = WIN_CONDITION ∧
    (updateGameState rnd0 1 stateC2).map StepResult.outcome = some Outcome.won := by
  refine ⟨by decide, by decide, ?_⟩
  rfl

/-- C2 (amended): when the head cell is in bounds, the heading is one of
the four arrow headings, and the target cell is outside `[0, 10)` on
either axis, the step is terminal (`false` returned) and the state is
returned unchanged; the reported outcome is `lost` unless the pre-move
snake length minus one already equals the win target, in which case the
ternary reports the win instead. -/
theorem C2_wall_collision_terminal {rnd : Nat → Fin 10 × Fin 10} {fuel : Nat}
    {s : GameState} {hd : Int × Int} {t : List (Int × Int)}
    (hsn : s.snakeCells = hd :: t) (hhd : inB hd) (hdir : s.snakeDirection ∈ validDirs)
    (hout : ¬ inB (stepTarget hd s.snakeDirection)) :
    updateGameState rnd fuel s = some ⟨false,
      if s.snakeCells.length - 1 = WIN_CONDITION then Outcome.won else Outcome.lost, s⟩ := by
  have hw : touchWall (stepTarget hd s.snakeDirection) := touchWall_of_not_inB hhd hdir hout
  unfold updateGameState
  rw [hsn]
  simp only [if_pos hw]

theorem C2_witness :
    stateC2w.snakeCells = (5, 9) :: [] ∧ inB (5, 9) ∧
    stateC2w.snakeDirection ∈ validDirs ∧ ¬ inB (stepTarget (5, 9) (0, 1)) ∧
    updateGameState rnd0 1 stateC2w = some ⟨false,
      if stateC2w.snakeCells.length - 1 = WIN_CONDITION then Outcome.won else Outcome.lost,
      stateC2w⟩ :=
  ⟨rfl, by decide, by decide, by decide,
   C2_wall_collision_terminal rfl (by decide) (by decide) (by decide)⟩

/-- C3 (counterexample): in `stateC3` the target cell is in bounds and
holds `'snake'` (it is the snake's own tail), yet because the pre-move
snake length minus one equals the win target, the terminal ternary
reports the win status, not the loss the claim demands. -/
theorem C3_counterexample :
    inB (stepTarget (5, 5) (0, 1)) ∧
    stateC3.virtualField (stepTarget (5, 5) (0, 1)) = Cell.snake ∧
    stateC3.snakeCells.length - 1 = WIN_CONDITION ∧
    (updateGameState rnd0 1 stateC3).map StepResult.outcome = some Outcome.won := by
  refine ⟨by decide, by decide, by decide, ?_⟩
  rfl

/-- C3 (amended): whenever the target cell is in bounds and holds
`'snake'` — including the immediately-vacating tail cell of a snake of
length at least two — the step is terminal and the state is returned
unchanged; the outcome is `lost` unless the pre-move snake length minus
one already equals the win target, in which case the ternary reports the
win instead. -/
theorem C3_self_collision_terminal {rnd : Nat → Fin 10 × Fin 10} {fuel : Nat}
    {s : GameState} {hd : Int × Int} {t : List (Int × Int)}
    (hsn : s.snakeCells = hd :: t)
    (hcell : getCell? s.virtualField (stepTarget hd s.snakeDirection) = some Cell.snake) :
    updateGameState rnd fuel s = some ⟨false,
      if s.snakeCells.length - 1 = WIN_CONDITION then Outcome.won else Outcome.lost, s⟩ := by
  rcases getCell?_eq_some hcell with ⟨hstep, -⟩
  have hw : ¬ touchWall (stepTarget hd s.snakeDirection) := touchWall_false_of_inB hstep
  unfold updateGameState
  rw [hsn]
  simp only [if_neg hw, hcell, eq_self_iff_true, true_or, if_true]

theorem C3_witness :
    stateC3w.snakeCells = (5, 5) :: [(5, 6)] ∧
    getCell? stateC3w.virtualField (stepTarget (5, 5) (0, 1)) = some Cell.snake ∧
    updateGameState rnd0 1 stateC3w = some ⟨false,
      if stateC3w.snakeCells.length - 1 = WIN_CONDITION then Outcome.won else Outcome.lost,
      stateC3w⟩ :=
  ⟨rfl, by decide, C3_self_collision_terminal rfl (by decide)⟩

/-- C4: a step reports the win outcome exactly when the pre-move snake
length minus one equals the win target (five apples); in that case the
function returns `false` and the state untouched, so the win is reported
on the evaluation after the fifth apple was consumed, never on the
consuming evaluation itself (whose pre-move length is still five). -/
theorem C4_win_iff_target {rnd : Nat → Fin 10 × Fin 10} {fuel : Nat}
    {s : GameState} {res : StepResult} (h : updateGameState rnd fuel s = some res) :
    (res.outcome = Outcome.won ↔ s.snakeCells.length - 1 = WIN_CONDITION) ∧
    (res.outcome = Outcome.won → res.isGameOn = false ∧ res.state = s) := by
  rcases updateGameState_inversion h with ⟨hd, t, hsn, hterm | hcont⟩
  · rcases hterm with ⟨hres, -⟩
    subst hres
    dsimp only
    constructor
    · by_cases hw : s.snakeCells.length - 1 = WIN_CONDITION
      · simp [hw]
      · simp [hw]
    · intro ho
      exact ⟨rfl, rfl⟩
  · rcases hcont with ⟨-, -, -, hnowin, hsub⟩
    have hro : res.outcome = Outcome.inProgress := by
      rcases hsub with ⟨-, na, -, -, hres⟩ | ⟨-, -, hres⟩ <;> rw [hres]
    rw [hro]
    refine ⟨⟨(fun hc => nomatch hc), (fun hw => absurd hw hnowin)⟩, (fun hc => nomatch hc)⟩

theorem C4_witness :
    updateGameState rnd0 1 stateC4w = some ⟨false, Outcome.won, stateC4w⟩ ∧
    (((⟨false, Outcome.won, stateC4w⟩ : StepResult).outcome = Outcome.won ↔
        stateC4w.snakeCells.length - 1 = WIN_CONDITION) ∧
     ((⟨false, Outcome.won, stateC4w⟩ : StepResult).outcome = Outcome.won →
        (⟨false, Outcome.won, stateC4w⟩ : StepResult).isGameOn = false ∧
        (⟨false, Outcome.won, stateC4w⟩ : StepResult).state = stateC4w)) := by
  have h : updateGameState rnd0 1 stateC4w = some ⟨false, Outcome.won, stateC4w⟩ := rfl
  exact ⟨h, C4_win_iff_target h⟩

theorem gameInv_gridOf {a : Int × Int} {cells : List (Int × Int)} {d : Int × Int}
    (hnd : cells.Nodup) (hb : ∀ p ∈ cells, inB p) (ha : a ∉ cells) (haB : inB a)
    (hne : cells ≠ []) (hd : d ∈ validDirs) :
    GameInv ⟨gridOf [a] cells, cells, d⟩ := by
  refine ⟨?_, hnd, hb, ?_, hne, hd⟩
  · intro p hp
    dsimp only
    unfold gridOf
    by_cases hpc : p ∈ cells
    · rw [if_pos hpc]
      simp [hpc]
    · rw [if_neg hpc]
      constructor
      · intro hc
        split at hc <;> cases hc
      · intro hm
        exact absurd hm hpc
  · dsimp only
    have hfil : posFinset.filter (fun p => gridOf [a] cells p = Cell.apple) = {a} := by
      ext p
      simp only [Finset.mem_filter, Finset.mem_singleton, mem_posFinset]
      constructor
      · rintro ⟨hp, hv⟩
        unfold gridOf at hv
        by_cases hpc : p ∈ cells
        · rw [if_pos hpc] at hv; cases hv
        · rw [if_neg hpc] at hv
          by_cases hpa : p ∈ [a]
          · simpa using hpa
          · rw [if_neg hpa] at hv; cases hv
      · intro hp
        subst hp
        refine ⟨haB, ?_⟩
        unfold gridOf
        rw [if_neg ha, if_pos (by simp)]
    have hcard := Finset.card_filter (fun p => gridOf [a] cells p = Cell.apple) posFinset
    rw [hfil] at hcard
    simp only [Finset.card_singleton] at hcard
    unfold countCell
    omega

/-- C5: on a non-terminal step onto the apple cell, the snake grows by
exactly one (the head is pushed, the tail is not popped that tick), and
the replacement apple returned by the sampling loop lands on a cell that
was `'empty'` in the pre-step grid — hence neither on any snake segment
(old or new) nor on the cell the apple was just eaten from. -/
theorem C5_eat_apple {rnd : Nat → Fin 10 × Fin 10} {fuel : Nat}
    {s : GameState} {res : StepResult} (hi : GameInv s)
    (h : updateGameState rnd fuel s = some res) (hon : res.isGameOn = true)
    (hap : s.virtualField (nextTarget s) = Cell.apple) :
    res.state.snakeCells = nextTarget s :: s.snakeCells ∧
    res.state.snakeCells.length = s.snakeCells.length + 1 ∧
    ∃ na, getEmptyCellFuel s.virtualField rnd fuel = some na ∧
      s.virtualField na = Cell.empty ∧ na ∉ res.state.snakeCells ∧
      na ≠ nextTarget s ∧ res.state.virtualField na = Cell.apple := by
  rcases updateGameState_inversion h with ⟨hd, t, hsn, hterm | hcont⟩
  · simp [hterm.1] at hon
  · have hnt : nextTarget s = stepTarget hd s.snakeDirection := by
      rw [nextTarget, hsn, List.headD_cons]
    rw [hnt] at hap
    rcases hcont with ⟨hwall, hstep, hns, hnowin, happ | hcrawl⟩
    · rcases happ with ⟨hap2, na, hge, hna, hres⟩
      rcases getEmptyCellFuel_some hge with ⟨hnaE, -⟩
      have hnane : na ≠ stepTarget hd s.snakeDirection := by
        intro hc
        rw [hc, hap2] at hnaE
        cases hnaE
      have hnamem : na ∉ s.snakeCells := fun hm => by
        rw [(hi.mem na hna).mpr hm] at hnaE
        cases hnaE
      rw [hres]
      dsimp only
      refine ⟨by rw [hnt], by simp, na, hge, hnaE, ?_, by rw [hnt]; exact hnane, ?_⟩
      · intro hm
        rcases List.mem_cons.mp hm with hc | hc
        · exact hnane hc
        · exact hnamem hc
      · rw [Function.update_noteq hnane, Function.update_same]
    · rcases hcrawl with ⟨hem, -, -⟩
      rw [hap] at hem
      cases hem

theorem C5_witness :
    GameInv stateC5w ∧ updateGameState rnd0 1 stateC5w = some resC5w ∧
    resC5w.isGameOn = true ∧ stateC5w.virtualField (nextTarget stateC5w) = Cell.apple ∧
    (resC5w.state.snakeCells = nextTarget stateC5w :: stateC5w.snakeCells ∧
     resC5w.state.snakeCells.length = stateC5w.snakeCells.length + 1 ∧
     ∃ na, getEmptyCellFuel stateC5w.virtualField rnd0 1 = some na ∧
       stateC5w.virtualField na = Cell.empty ∧ na ∉ resC5w.state.snakeCells ∧
       na ≠ nextTarget stateC5w ∧ resC5w.state.virtualField na = Cell.apple) := by
  have hi : GameInv stateC5w :=
    gameInv_gridOf (by decide) (by decide) (by decide) (by decide) (by decide) (by decide)
  have h : updateGameState rnd0 1 stateC5w = some resC5w := rfl
  exact ⟨hi, h, rfl, rfl, C5_eat_apple hi h rfl rfl⟩

/-- C6: on a non-terminal step onto an empty cell (no wall, no self
collision, no apple ahead), the snake keeps its length, the number of
occupied cells is unchanged, the target cell becomes `'snake'`, the old
tail cell becomes `'empty'`, and no other grid cell changes. -/
theorem C6_crawl_preserves_counts {rnd : Nat → Fin 10 × Fin 10} {fuel : Nat}
    {s : GameState} {res : StepResult} (hi : GameInv s)
    (h : updateGameState rnd fuel s = some res) (hon : res.isGameOn = true)
    (hem : s.virtualField (nextTarget s) = Cell.empty) :
    res.state.snakeCells.length = s.snakeCells.length ∧
    countNonEmpty res.state.virtualField = countNonEmpty s.virtualField ∧
    res.state.virtualField (nextTarget s) = Cell.snake ∧
    res.state.virtualField (s.snakeCells.getLastD (0, 0)) = Cell.empty ∧
    (∀ p, p ≠ nextTarget s → p ≠ s.snakeCells.getLastD (0, 0) →
      res.state.virtualField p = s.virtualField p) := by
  rcases updateGameState_inversion h with ⟨hd, t, hsn, hterm | hcont⟩
  · simp [hterm.1] at hon
  · have hnt : nextTarget s = stepTarget hd s.snakeDirection := by
      rw [nextTarget, hsn, List.headD_cons]
    rw [hnt] at hem ⊢
    rcases hcont with ⟨hwall, hstep, hns, hnowin, happ | hcrawl⟩
    · rcases happ with ⟨hap2, -⟩
      rw [hem] at hap2
      cases hap2
    · rcases hcrawl with ⟨-, htailB, hres⟩
      rcases List.eq_nil_or_concat s.snakeCells with hnil | ⟨L, tl, hLc⟩
      · exact absurd hnil hi.ne
      have hL : s.snakeCells = L ++ [tl] := by rw [hLc, List.concat_eq_append]
      have hlast : (stepTarget hd s.snakeDirection :: s.snakeCells).getLastD (0, 0) = tl := by
        rw [hL, ← List.cons_append, List.getLastD_concat]
      have hlast2 : s.snakeCells.getLastD (0, 0) = tl := by
        rw [hL, List.getLastD_concat]
      have hdrop : (stepTarget hd s.snakeDirection :: s.snakeCells).dropLast
          = stepTarget hd s.snakeDirection :: L := by
        rw [hL, ← List.cons_append, List.dropLast_concat]
      have htlmem : tl ∈ s.snakeCells := by rw [hL]; simp
      have htlB : inB tl := hi.bounds tl htlmem
      have htlsnake : s.virtualField tl = Cell.snake := (hi.mem tl htlB).mpr htlmem
      have htlne : tl ≠ stepTarget hd s.snakeDirection := by
        intro hc
        rw [hc, hem] at htlsnake
        cases htlsnake
      rw [hres, hlast, hdrop, hlast2]
      dsimp only
      refine ⟨by rw [hL]; simp, ?_, ?_, ?_, ?_⟩
      · have e1 := countNonEmpty_update (g := s.virtualField) (q := tl) Cell.empty htlB
        have e2 := countNonEmpty_update (g := Function.update s.virtualField tl Cell.empty)
          (q := stepTarget hd s.snakeDirection) Cell.snake hstep
        rw [htlsnake] at e1
        rw [Function.update_noteq (fun hc => htlne hc.symm), hem] at e2
        simp only [reduceCtorEq, eq_self_iff_true, if_true, if_false] at e1 e2
        omega
      · rw [Function.update_same]
      · rw [Function.update_noteq htlne, Function.update_same]
      · intro p hp1 hp2
        rw [Function.update_noteq hp1, Function.update_noteq hp2]

theorem C6_witness :
    GameInv stateC6w ∧ updateGameState rnd0 1 stateC6w = some resC6w ∧
    resC6w.isGameOn = true ∧ stateC6w.virtualField (nextTarget stateC6w) = Cell.empty ∧
    (resC6w.state.snakeCells.length = stateC6w.snakeCells.length ∧
     countNonEmpty resC6w.state.virtualField = countNonEmpty stateC6w.virtualField ∧
     resC6w.state.virtualField (nextTarget stateC6w) = Cell.snake ∧
     resC6w.state.virtualField (stateC6w.snakeCells.getLastD (0, 0)) = Cell.empty ∧
     (∀ p, p ≠ nextTarget stateC6w → p ≠ stateC6w.snakeCells.getLastD (0, 0) →
       resC6w.state.virtualField p = stateC6w.virtualField p)) := by
  have hi : GameInv stateC6w :=
    gameInv_gridOf (by decide) (by decide) (by decide) (by decide) (by decide) (by decide)
  have h : updateGameState rnd0 1 stateC6w = some resC6w := rfl
  exact ⟨hi, h, rfl, rfl, C6_crawl_preserves_counts hi h rfl rfl⟩

theorem getEmptyCellFuel_none_of_missed {g : Grid} {rnd : Nat → Fin 10 × Fin 10}
    (hmiss : ∀ i, g (toCoord (rnd i)) ≠ Cell.empty) (fuel : Nat) :
    getEmptyCellFuel g rnd fuel = none := by
  induction fuel with
  | zero => rfl
  | succ n ih =>
    unfold getEmptyCellFuel
    rw [if_neg (hmiss n)]
    exact ih

/-- C7 (counterexample): `gridC7` has an empty cell at `(0, 0)`, yet the
rejection-sampling loop run with a draw stream that always proposes the
occupied cell `(1, 1)` has not terminated after 100 iterations — the
loop terminates only when the random draws happen to hit an empty cell,
not for every grid that has one; and the source contains no
`NoEmptyCellAvailable` signal at all (on a full grid it simply never
exits the loop, see the last clause of the amended theorem). -/
theorem C7_counterexample :
    gridC7 ((0 : Int), (0 : Int)) = Cell.empty ∧
    getEmptyCellFuel gridC7 rndC7 100 = none := by
  exact ⟨rfl, by decide⟩

/-- C7 (amended): any coordinate returned by the sampling loop is an
in-bounds empty cell; the loop terminates whenever the observed draws
contain an empty cell (which is how termination is almost sure under
uniform randomness when an empty cell exists, though not guaranteed for
every draw sequence); if no in-bounds cell is empty the loop never
returns for any draw sequence and any number of iterations — the code
loops forever instead of signalling `NoEmptyCellAvailable`; and more
generally it never returns whenever the draw sequence never hits an
empty cell. -/
theorem C7_getEmptyCell_contract (g : Grid) (rnd : Nat → Fin 10 × Fin 10) (fuel : Nat) :
    (∀ p, getEmptyCellFuel g rnd fuel = some p → g p = Cell.empty ∧ inB p) ∧
    ((∃ i, i < fuel ∧ g (toCoord (rnd i)) = Cell.empty) →
      (getEmptyCellFuel g rnd fuel).isSome = true) ∧
    ((∀ p, inB p → g p ≠ Cell.empty) → getEmptyCellFuel g rnd fuel = none) ∧
    ((∀ i, g (toCoord (rnd i)) ≠ Cell.empty) → getEmptyCellFuel g rnd fuel = none) :=
  ⟨fun _ h => getEmptyCellFuel_some h,
   getEmptyCellFuel_isSome,
   fun h => getEmptyCellFuel_none_of_full h rnd fuel,
   fun h => getEmptyCellFuel_none_of_missed h fuel⟩

theorem C7_witness :
    (∃ i, i < 1 ∧ emptyGrid (toCoord (rnd0 i)) = Cell.empty) ∧
    (getEmptyCellFuel emptyGrid rnd0 1).isSome = true :=
  ⟨⟨0, Nat.zero_lt_one, rfl⟩,
   (C7_getEmptyCell_contract emptyGrid rnd0 1).2.1 ⟨0, Nat.zero_lt_one, rfl⟩⟩

/-- C8 (counterexample): in `stateC8` the committed heading is right and
the snake is bent in a hook whose tail neighbour lies to the left of the
tail; requesting the exact-opposite heading (left) does reverse the
segment order, but the very next step moves the new head onto the
adjacent body cell `(1, 2)` and reports a self-collision — contradicting
the claim that the subsequent step proceeds without reporting one. -/
theorem C8_counterexample :
    stateC8.snakeDirection = (0, 1) ∧ keyDir Key.left = (0, -1) ∧
    (handleKeyboard Key.left stateC8).snakeCells = stateC8.snakeCells.reverse ∧
    stateC8.virtualField (1, 2) = Cell.snake ∧
    (updateGameState rnd0 1 (handleKeyboard Key.left stateC8)).map StepResult.outcome
      = some Outcome.lost := by
  exact ⟨rfl, rfl, rfl, rfl, rfl⟩

/-- C8 (amended): with a committed heading among the four arrow values,
requesting the exact-opposite heading reverses the segment order (the
previous tail becomes the new head at index 0) and then commits the new
heading; any non-opposite request commits the heading directly without
reversing.  (The reversal alone does not guarantee that the subsequent
step avoids a self-collision report: if the cell adjacent to the
previous tail in the requested direction is occupied by the body, the
next step still reports a collision, as the counterexample shows.) -/
theorem C8_opposite_reverses {s : GameState} (k : Key) (hdir : s.snakeDirection ∈ validDirs) :
    (keyDir k = (-s.snakeDirection.1, -s.snakeDirection.2) →
      (handleKeyboard k s).snakeCells = s.snakeCells.reverse ∧
      (handleKeyboard k s).snakeCells.head? = s.snakeCells.getLast? ∧
      (handleKeyboard k s).snakeDirection = keyDir k) ∧
    (keyDir k ≠ (-s.snakeDirection.1, -s.snakeDirection.2) →
      (handleKeyboard k s).snakeCells = s.snakeCells ∧
      (handleKeyboard k s).snakeDirection = keyDir k) := by
  simp only [validDirs, List.mem_cons, List.not_mem_nil, or_false] at hdir
  cases k <;> rcases hdir with h | h | h | h <;>
    simp [handleKeyboard, keyDir, h, List.head?_reverse, Prod.ext_iff]

theorem C8_witness :
    stateC8w.snakeDirection ∈ validDirs ∧
    keyDir Key.left = (-stateC8w.snakeDirection.1, -stateC8w.snakeDirection.2) ∧
    ((handleKeyboard Key.left stateC8w).snakeCells = stateC8w.snakeCells.reverse ∧
     (handleKeyboard Key.left stateC8w).snakeCells.head? = stateC8w.snakeCells.getLast? ∧
     (handleKeyboard Key.left stateC8w).snakeDirection = keyDir Key.left) :=
  ⟨by decide, by decide,
   (C8_opposite_reverses Key.left (by decide)).1 (by decide)⟩

/-- C9 (counterexample): the keyboard handler does not leave the snake
segment list unchanged: in `stateC9` (heading down) the `ArrowUp` input
reverses `snakeCells`, so input handling mutates more than the heading. -/
theorem C9_counterexample :
    (handleKeyboard Key.up stateC9).virtualField = stateC9.virtualField ∧
    (handleKeyboard Key.up stateC9).snakeCells ≠ stateC9.snakeCells := by
  exact ⟨rfl, by decide⟩

/-- C9 (amended): input handling never writes to the grid, and its only
effect on the snake segment list is to reverse its order (leaving the
set of segments unchanged) when the requested heading is the exact
opposite of the committed one; otherwise it changes only the heading. -/
theorem C9_input_mutation_scope (k : Key) (s : GameState) :
    (handleKeyboard k s).virtualField = s.virtualField ∧
    ((handleKeyboard k s).snakeCells = s.snakeCells ∨
     (handleKeyboard k s).snakeCells = s.snakeCells.reverse) := by
  cases k <;> refine ⟨rfl, ?_⟩ <;> dsimp only [handleKeyboard] <;> split <;>
    first
    | exact Or.inl rfl
    | exact Or.inr rfl

/-- C10: under the snake bounds invariant (every segment in `[0, 10)` on
both axes, a nonempty segment list, an arrow heading) every grid access
of a step is in bounds, so the step never fails on indexing: the
self-collision read happens only behind the wall check, the head write
reuses that checked coordinate, the tail write uses a coordinate from
the segment list, and the apple write uses the in-range sampled cell.
(The only other failure source of the embedding, exhaustion of the
sampling fuel, is excluded by hypothesis.) -/
theorem C10_no_oob_access {rnd : Nat → Fin 10 × Fin 10} {fuel : Nat} {s : GameState}
    (hb : ∀ p ∈ s.snakeCells, inB p) (hne : s.snakeCells ≠ [])
    (hdir : s.snakeDirection ∈ validDirs)
    (hfuel : s.virtualField (nextTarget s) = Cell.apple →
      (getEmptyCellFuel s.virtualField rnd fuel).isSome = true) :
    (updateGameState rnd fuel s).isSome = true := by
  cases hsn : s.snakeCells with
  | nil => exact absurd hsn hne
  | cons hd t =>
    have hhd : inB hd := hb hd (by rw [hsn]; simp)
    have hnt : nextTarget s = stepTarget hd s.snakeDirection := by
      rw [nextTarget, hsn, List.headD_cons]
    rw [hnt] at hfuel
    unfold updateGameState
    rw [hsn]
    dsimp only
    split
    · rfl
    · rename_i hw
      have hstep : inB (stepTarget hd s.snakeDirection) :=
        inB_of_not_touchWall hhd hdir hw
      rw [getCell?_of_inB hstep]
      dsimp only
      split
      · rfl
      · split
        · rename_i hterm happle
          rcases Option.isSome_iff_exists.mp (hfuel (by
            have hc := happle
            exact hc)) with ⟨na, hna⟩
          rcases getEmptyCellFuel_some hna with ⟨-, hnaB⟩
          rw [hna]
          dsimp only
          rw [setCell?_of_inB hnaB]
          dsimp only
          rw [setCell?_of_inB hstep]
          rfl
        · have htl : (stepTarget hd s.snakeDirection :: hd :: t).getLastD (0, 0)
              ∈ stepTarget hd s.snakeDirection :: hd :: t :=
            getLastD_cons_mem _ _ _
          have htlB : inB ((stepTarget hd s.snakeDirection :: hd :: t).getLastD (0, 0)) := by
            rcases List.mem_cons.mp htl with hc | hc
            · exact hc ▸ hstep
            · exact hb _ (by rw [hsn]; exact hc)
          rw [setCell?_of_inB htlB]
          dsimp only
          rw [setCell?_of_inB hstep]
          rfl

theorem C10_witness :
    (∀ p ∈ stateC10w.snakeCells, inB p) ∧ stateC10w.snakeCells ≠ [] ∧
    stateC10w.snakeDirection ∈ validDirs ∧
    (stateC10w.virtualField (nextTarget stateC10w) = Cell.apple →
      (getEmptyCellFuel stateC10w.virtualField rnd0 1).isSome = true) ∧
    (updateGameState rnd0 1 stateC10w).isSome = true :=
  ⟨by decide, by decide, by decide, by decide,
   C10_no_oob_access (by decide) (by decide) (by decide) (by decide)⟩
